import Mathlib

/-!
Shallow embedding of `src/reduce_bench.cu` (a cross-backend benchmark of
floating-point array summation) and proofs about it.

Modelling conventions:
* C++ `double`/`float` arithmetic is idealised as exact rational arithmetic
  (`ℚ`); the claims treated here are about which formulas the code computes,
  not about rounding.  Division is Lean's total `ℚ` division (`x / 0 = 0`),
  with the zero-denominator situation made explicit where a claim is about it.
* C++ strings are embedded as `List Char` (the character sequence of the
  string); `String.data` converts Lean string literals.
* Machine integers: `argv` parsing goes through a signed 64-bit `long`
  (embedded as unbounded `Int`, adequate for the inputs considered) and the
  C++ conversion `static_cast<size_t>` is value mod 2^64.
* The benchmark framework (google benchmark) is external: a measurement state
  is embedded as the iteration count, the thread index and the counter map the
  case publishes into.
-/

/-- Decimal digit character, as produced by `fmt::format("{}", n)` for the
work-group size: character code 48 + digit. -/
def digitChar (d : Nat) : Char := Char.ofNat (48 + d)

/-- Fuel-driven decimal rendering of a natural number, least significant digit
computed last; `natCharsAux fuel n` is correct whenever `n ≤ fuel`. -/
def natCharsAux : Nat → Nat → List Char
  | 0, _ => []
  | fuel + 1, n => if n < 10 then [digitChar n] else natCharsAux fuel (n / 10) ++ [digitChar (n % 10)]

/-- The decimal character sequence of `n`, as `fmt::format("{}", n)` prints an
unsigned integer. -/
def natChars (n : Nat) : List Char := natCharsAux n n

/-- Left inverse of decimal rendering: fold the digits back into a number
(this is also exactly the accumulation `atol` performs on a digit string). -/
def revEval (s : List Char) : Nat := s.foldl (fun a c => a * 10 + (c.toNat - 48)) 0

/-- One discovered OpenCL Compute Target, as returned by `opencl_targets()`
and consumed in `main` (fields used at lines 52-54 and 83-88). -/
structure Target where
  device_name : List Char
  device_version : List Char
  driver_version : List Char
  language_version : List Char
deriving DecidableEq

/-- Which backend a registered benchmark case drives. -/
inductive Backend
  | cpu
  | cuda
  | opencl
deriving DecidableEq

/-- The values the OpenCL registration lambda at lines 85-89 captures by value
(`[=]`): one target, one kernel name, one work-group size. -/
structure OclCapture where
  tgt : Target
  kernel : List Char
  wg : Nat
deriving DecidableEq

/-- One registered benchmark case: its label, its backend, and (for the
dynamically generated OpenCL cases) the by-value captured parameters. -/
structure CaseRec where
  name : List Char
  backend : Backend
  captured : Option OclCapture
deriving DecidableEq

/-- The label built at line 83:
`fmt::format("opencl-{} split by {} on {}", kernel_name, group_size, tgt.device_name)`. -/
def fmtLabel (kernel : List Char) (wg : Nat) (dev : List Char) : List Char :=
  "opencl-".data ++ kernel ++ " split by ".data ++ natChars wg ++ " on ".data ++ dev

/-- The dynamic OpenCL registration loop of lines 80-94: for every discovered
target, for every kernel variant, for every work-group size, register one case
whose label is `fmtLabel` and whose run parameters are the by-value captured
copies of the three loop variables. -/
def dynamicCases (targets : List Target) (kernels : List (List Char)) (wgs : List Nat) :
    List CaseRec :=
  targets.flatMap fun tgt =>
    kernels.flatMap fun kernel_name =>
      wgs.map fun group_size =>
        { name := fmtLabel kernel_name group_size tgt.device_name
          backend := Backend.opencl
          captured := some ⟨tgt, kernel_name, group_size⟩ }

/-- The eleven unconditionally registered CPU cases of lines 57-69. -/
def staticCpuCases : List CaseRec :=
  [⟨"cpu_baseline:f32".data, Backend.cpu, none⟩,
   ⟨"cpu_baseline:f64".data, Backend.cpu, none⟩,
   ⟨"cpu_openmp".data, Backend.cpu, none⟩,
   ⟨"cpu_par:f32".data, Backend.cpu, none⟩,
   ⟨"cpu_par:f64".data, Backend.cpu, none⟩,
   ⟨"cpu_par_unseq:f32".data, Backend.cpu, none⟩,
   ⟨"cpu_par_unseq:f64".data, Backend.cpu, none⟩,
   ⟨"cpu_avx2:f32".data, Backend.cpu, none⟩,
   ⟨"cpu_avx2:f32kahan".data, Backend.cpu, none⟩,
   ⟨"cpu_avx2:f64".data, Backend.cpu, none⟩,
   ⟨"cpu_avx2:f64:by32".data, Backend.cpu, none⟩]

/-- The three CUDA cases of lines 73-75, registered only when
`cuda_device_count()` is nonzero. -/
def cudaCases : List CaseRec :=
  [⟨"cuda_cub".data, Backend.cuda, none⟩,
   ⟨"cuda_warps".data, Backend.cuda, none⟩,
   ⟨"cuda_thrust".data, Backend.cuda, none⟩]

/-- The complete case list `main` registers (lines 57-94): static CPU cases,
then the CUDA cases gated on a nonzero device count, then the dynamic OpenCL
cases. -/
def registeredCases (cudaCount : Nat) (targets : List Target) (kernels : List (List Char))
    (wgs : List Nat) : List CaseRec :=
  staticCpuCases ++ (if cudaCount = 0 then [] else cudaCases) ++ dynamicCases targets kernels wgs

/-- The per-target diagnostic line of lines 52-54:
`fmt::print("- OpenCL: {} ({}), {}, {}\n", ...)`. -/
def oclLogLine (t : Target) : List Char :=
  "- OpenCL: ".data ++ t.device_name ++ " (".data ++ t.device_version ++ "), ".data ++
    t.driver_version ++ ", ".data ++ t.language_version

/-- The diagnostic lines `main` prints before running: the missing-size warning
(line 42), one line per OpenCL target (lines 52-54), and the no-CUDA notice
(line 77). -/
def logLines (args : List (List Char)) (targets : List Target) (cudaCount : Nat) :
    List (List Char) :=
  (if args.length ≤ 1
     then ["You did not feed the size of arrays, so we will use a 1GB array!".data] else []) ++
  targets.map oclLogLine ++
  (if cudaCount = 0 then ["No CUDA capable devices found!".data] else [])

/-- The digit-accumulation loop inside C `atol`: consume decimal digits from
the front, stop at the first non-digit. -/
def atolLoop : List Char → Int → Int
  | [], acc => acc
  | c :: cs, acc =>
      if c.isDigit then atolLoop cs (acc * 10 + ((c.toNat - 48 : Nat) : Int)) else acc

/-- `std::atol` at line 45: skip leading whitespace, optional sign, then
decimal digits (embedded with unbounded `Int`; `long` overflow does not arise
for the inputs considered here). -/
def atol (s : List Char) : Int :=
  match s.dropWhile Char.isWhitespace with
  | '-' :: rest => - atolLoop rest 0
  | '+' :: rest => atolLoop rest 0
  | rest => atolLoop rest 0

/-- `static_cast<size_t>` applied to a signed value (line 45): conversion to
an unsigned 64-bit integer is reduction modulo 2^64. -/
def toSizeT (i : Int) : Nat := (i % (2 ^ 64 : Int)).toNat

/-- The element count chosen by `main` (lines 40-46): with no positional
argument, `1024*1024*1024 / sizeof(float)`; otherwise
`static_cast<size_t>(std::atol(argv[1]))`. -/
def elementsOf (args : List (List Char)) : Nat :=
  if args.length ≤ 1 then 1024 * 1024 * 1024 / 4 else toSizeT (atol (args.getD 1 []))

/-- The dataset built at lines 47-48: `elementsOf args` elements, every one
filled with `1.f`. -/
def datasetOf (args : List (List Char)) : List ℚ :=
  List.replicate (elementsOf args) (1 : ℚ)

/-- `double const sum_expected = dataset.size() * 1.0;` (line 15). -/
def sumExpected (d : List ℚ) : ℚ := (d.length : ℚ) * 1

/-- `error = std::abs(sum_expected - sum) / sum_expected;` (line 21).  Total
`ℚ` division: the code itself has no guard against a zero denominator. -/
def relativeError (expected observed : ℚ) : ℚ := |expected - observed| / expected

/-- State carried by the timed loop of `generic` (lines 15-22): the dataset the
accumulator reads (threaded explicitly to record that invocations may in
principle rewrite it), the last sum, the last relative error. -/
structure LoopState where
  data : List ℚ
  sum : ℚ
  error : ℚ
deriving DecidableEq

/-- The timed loop of `generic` (lines 15-22) run for a given number of
iterations: each iteration invokes the accumulator once and recomputes the
relative error of the fresh sum against the up-front `sumExpected`. -/
def genericLoop (acc : List ℚ → ℚ × List ℚ) (d : List ℚ) : Nat → LoopState
  | 0 => ⟨d, 0, 0⟩
  | n + 1 =>
      let prev := genericLoop acc d n
      let r := acc prev.data
      ⟨r.2, r.1, relativeError (sumExpected d) r.1⟩

/-- One published counter: its value and whether it carries
`bm::Counter::kIsRate`. -/
structure CounterV where
  value : ℚ
  isRate : Bool
deriving DecidableEq

/-- The three counters written at lines 25-28: `adds/s` and `bytes/s` as
rates (`total_ops` and `total_ops * sizeof(float)`), and `error,%` as the
final relative error times 100. -/
def publishedCounters (iterations dsize : Nat) (err : ℚ) : List (List Char × CounterV) :=
  [("adds/s".data, ⟨((iterations * dsize : Nat) : ℚ), true⟩),
   ("bytes/s".data, ⟨((iterations * dsize * 4 : Nat) : ℚ), true⟩),
   ("error,%".data, ⟨err * 100, false⟩)]

/-- The whole of `generic` (lines 14-30): run the timed loop, then write the
three counters only when `state.thread_index() == 0`; a non-lead thread leaves
the counter map as it was. -/
def generic (acc : List ℚ → ℚ × List ℚ) (d : List ℚ) (iterations threadIdx : Nat)
    (old : List (List Char × CounterV)) : List (List Char × CounterV) :=
  let fin := genericLoop acc d iterations
  if threadIdx = 0 then publishedCounters iterations d.length fin.error else old

/-- Modelled from the spec: the scalar sequential CPU accumulator
(`cpu_baseline_gt`, defined in `reduce_cpu.hpp`, which is not under `src/`).
Per §4.1 it reduces the whole read-only range to one sum by naive sequential
addition and must not mutate the range; invocation returns the sum and the
(unchanged) range. -/
def cpuBaselineInvoke (d : List ℚ) : ℚ × List ℚ := (d.foldl (· + ·) 0, d)

/-- Modelled from the spec (§9 design note): the recommended explicit
enumeration — first the list of (target, kernel, granularity) triples, then a
map producing one immutable case descriptor per triple. -/
def specCaseDescriptors (targets : List Target) (kernels : List (List Char)) (wgs : List Nat) :
    List CaseRec :=
  ((targets.flatMap fun tgt => kernels.flatMap fun k => wgs.map fun g => (tgt, k, g)).map
    fun p =>
      { name := fmtLabel p.2.1 p.2.2 p.1.device_name
        backend := Backend.opencl
        captured := some ⟨p.1, p.2.1, p.2.2⟩ })

/-! ### Helper lemmas -/

/-- Splitting at a separator character: if neither prefix contains `c`, equal
lists of the shape `xs ++ c :: u` split uniquely. -/
theorem sepSplit {α : Type} {c : α} :
    ∀ (xs : List α) {ys u v : List α}, c ∉ xs → c ∉ ys →
      xs ++ c :: u = ys ++ c :: v → xs = ys ∧ u = v := by
  intro xs
  induction xs with
  | nil =>
    intro ys u v _ hy h
    cases ys with
    | nil =>
      simp only [List.nil_append] at h
      exact ⟨rfl, (List.cons.inj h).2⟩
    | cons y ys' =>
      simp only [List.nil_append, List.cons_append] at h
      obtain ⟨h1, -⟩ := List.cons.inj h
      subst h1
      exact absurd (List.mem_cons_self _ _) hy
  | cons x xs' ih =>
    intro ys u v hx hy h
    cases ys with
    | nil =>
      simp only [List.nil_append, List.cons_append] at h
      obtain ⟨h1, -⟩ := List.cons.inj h
      subst h1
      exact absurd (List.mem_cons_self _ _) hx
    | cons y ys' =>
      simp only [List.cons_append] at h
      obtain ⟨h1, h2⟩ := List.cons.inj h
      subst h1
      have hx' : c ∉ xs' := fun m => hx (List.mem_cons_of_mem _ m)
      have hy' : c ∉ ys' := fun m => hy (List.mem_cons_of_mem _ m)
      obtain ⟨e1, e2⟩ := ih hx' hy' h2
      exact ⟨by rw [e1], e2⟩

theorem digitChar_toNat {d : Nat} (h : d < 10) : (digitChar d).toNat = 48 + d := by
  interval_cases d <;> decide

theorem digitChar_ne_space {d : Nat} (h : d < 10) : digitChar d ≠ ' ' := by
  interval_cases d <;> decide

theorem revEval_append_digit (xs : List Char) (c : Char) :
    revEval (xs ++ [c]) = revEval xs * 10 + (c.toNat - 48) := by
  simp [revEval, List.foldl_append]

theorem revEval_natCharsAux : ∀ fuel n, n ≤ fuel → revEval (natCharsAux fuel n) = n := by
  intro fuel
  induction fuel with
  | zero =>
    intro n h
    have h0 : n = 0 := Nat.le_zero.mp h
    subst h0
    decide
  | succ f ih =>
    intro n h
    by_cases h10 : n < 10
    · simp only [natCharsAux, if_pos h10]
      simp [revEval, digitChar_toNat h10]
    · have hpos : 0 < n := by omega
      have hlt : n / 10 < n := Nat.div_lt_self hpos (by norm_num)
      have hfuel : n / 10 ≤ f := by omega
      simp only [natCharsAux, if_neg h10]
      rw [revEval_append_digit, ih _ hfuel, digitChar_toNat (Nat.mod_lt _ (by norm_num))]
      omega

theorem natChars_inj {m n : Nat} (h : natChars m = natChars n) : m = n := by
  have hm : revEval (natChars m) = m := revEval_natCharsAux m m le_rfl
  have hn : revEval (natChars n) = n := revEval_natCharsAux n n le_rfl
  rw [← hm, ← hn, h]

theorem space_not_mem_natCharsAux : ∀ fuel n, ' ' ∉ natCharsAux fuel n := by
  intro fuel
  induction fuel with
  | zero => intro n; simp [natCharsAux]
  | succ f ih =>
    intro n
    by_cases h10 : n < 10
    · simp only [natCharsAux, if_pos h10, List.mem_singleton]
      exact fun he => digitChar_ne_space h10 he.symm
    · simp only [natCharsAux, if_neg h10, List.mem_append, List.mem_singleton]
      rintro (hmem | he)
      · exact ih _ hmem
      · exact digitChar_ne_space (Nat.mod_lt _ (by norm_num)) he.symm

theorem space_not_mem_natChars (n : Nat) : ' ' ∉ natChars n :=
  space_not_mem_natCharsAux n n

/-- The label format is unambiguous: as long as kernel names contain no space
(decimal granularities never do), the kernel, the granularity and the device
name can all be read back off the label. -/
theorem fmtLabel_inj {k k' : List Char} {g g' : Nat} {d d' : List Char}
    (hk : ' ' ∉ k) (hk' : ' ' ∉ k') (h : fmtLabel k g d = fmtLabel k' g' d') :
    k = k' ∧ g = g' ∧ d = d' := by
  unfold fmtLabel at h
  simp only [List.append_assoc] at h
  have h1 := List.append_cancel_left h
  simp only [List.cons_append] at h1
  obtain ⟨hkk, h2⟩ := sepSplit k hk hk' h1
  simp only [List.cons.injEq, true_and] at h2
  obtain ⟨hgg, h3⟩ :=
    sepSplit (natChars g) (space_not_mem_natChars g) (space_not_mem_natChars g') h2
  simp only [List.cons.injEq, true_and] at h3
  exact ⟨hkk, natChars_inj hgg, h3⟩

theorem mem_dynamicCases {targets : List Target} {kernels : List (List Char)} {wgs : List Nat}
    {c : CaseRec} :
    c ∈ dynamicCases targets kernels wgs ↔
      ∃ t ∈ targets, ∃ k ∈ kernels, ∃ g ∈ wgs,
        c = ⟨fmtLabel k g t.device_name, Backend.opencl, some ⟨t, k, g⟩⟩ := by
  simp only [dynamicCases, List.mem_flatMap, List.mem_map]
  constructor
  · rintro ⟨t, ht, k, hk, g, hg, rfl⟩
    exact ⟨t, ht, k, hk, g, hg, rfl⟩
  · rintro ⟨t, ht, k, hk, g, hg, rfl⟩
    exact ⟨t, ht, k, hk, g, hg, rfl⟩

theorem length_flatMap_const {α γ : Type} (l : List α) (f : α → List γ) (m : Nat)
    (h : ∀ a ∈ l, (f a).length = m) : (l.flatMap f).length = l.length * m := by
  induction l with
  | nil => simp
  | cons a t ih =>
    simp only [List.flatMap_cons, List.length_append, List.length_cons]
    rw [h a (List.mem_cons_self a t), ih (fun x hx => h x (List.mem_cons_of_mem _ hx))]
    ring

theorem length_dynamicCases (targets : List Target) (kernels : List (List Char))
    (wgs : List Nat) :
    (dynamicCases targets kernels wgs).length =
      targets.length * kernels.length * wgs.length := by
  unfold dynamicCases
  rw [length_flatMap_const _ _ (kernels.length * wgs.length), mul_assoc]
  intro t _
  rw [length_flatMap_const _ _ wgs.length]
  intro k _
  exact List.length_map _ _

/-- Distinctness of the dynamically generated labels: granted pairwise-distinct
device names, kernel names and granularities, and kernel names free of spaces
(they are C identifiers), the generated labels are pairwise distinct. -/
theorem nodup_dynamic_names (targets : List Target) (kernels : List (List Char)) (wgs : List Nat)
    (hT : (targets.map Target.device_name).Nodup) (hK : kernels.Nodup) (hW : wgs.Nodup)
    (hSp : ∀ k ∈ kernels, ' ' ∉ k) :
    ((dynamicCases targets kernels wgs).map CaseRec.name).Nodup := by
  have hmap : (dynamicCases targets kernels wgs).map CaseRec.name =
      targets.flatMap fun t => kernels.flatMap fun k =>
        wgs.map fun g => fmtLabel k g t.device_name := by
    simp only [dynamicCases, List.map_flatMap, List.map_map]
    rfl
  rw [hmap, List.nodup_flatMap]
  constructor
  · intro t _
    rw [List.nodup_flatMap]
    constructor
    · intro k hkmem
      exact List.Nodup.map_on
        (fun g1 _ g2 _ heq => (fmtLabel_inj (hSp k hkmem) (hSp k hkmem) heq).2.1) hW
    · refine List.Pairwise.imp_of_mem ?_ hK
      intro k1 k2 h1mem h2mem hne a ha1 ha2
      simp only [List.mem_map] at ha1 ha2
      obtain ⟨g1, -, rfl⟩ := ha1
      obtain ⟨g2, -, heq⟩ := ha2
      exact hne ((fmtLabel_inj (hSp k2 h2mem) (hSp k1 h1mem) heq).1).symm
  · have hpw : targets.Pairwise (fun a b => a.device_name ≠ b.device_name) :=
      List.pairwise_map.mp hT
    refine List.Pairwise.imp_of_mem ?_ hpw
    intro t1 t2 h1 h2 hne a ha1 ha2
    simp only [List.mem_flatMap, List.mem_map] at ha1 ha2
    obtain ⟨k1, hk1, g1, -, rfl⟩ := ha1
    obtain ⟨k2, hk2, g2, -, heq⟩ := ha2
    exact hne ((fmtLabel_inj (hSp k2 hk2) (hSp k1 hk1) heq).2.2).symm

/-! ### Claim theorems -/

/-- C1: for every dataset of size N filled with 1.0, the expected sum the
measurement loop uses is exactly N, and after each accumulator invocation the
relative error is `|expected - observed| / expected` against that same
expected value, for any accumulator (backend) whatsoever. -/
theorem expectedSum_exact_and_error_formula (N : Nat) (acc : List ℚ → ℚ × List ℚ) (n : Nat) :
    sumExpected (List.replicate N (1 : ℚ)) = N ∧
    (genericLoop acc (List.replicate N (1 : ℚ)) (n + 1)).error =
      |(N : ℚ) - (genericLoop acc (List.replicate N (1 : ℚ)) (n + 1)).sum| / N := by
  have hexp : sumExpected (List.replicate N (1 : ℚ)) = N := by simp [sumExpected]
  refine ⟨hexp, ?_⟩
  simp only [genericLoop, relativeError, hexp]

/-- C2: the dynamic OpenCL registration loop registers exactly one case per
(discovered target, kernel variant, granularity) triple — `|targets| ×
|kernels| × |granularities|` cases in all — and each case's label contains its
kernel name, its decimal granularity and its target's device name; under the
well-formedness of the discovered names (pairwise-distinct device names,
distinct kernel identifiers without spaces, distinct granularities) all the
labels are distinct. -/
theorem dynamic_case_matrix (targets : List Target) (kernels : List (List Char)) (wgs : List Nat)
    (hT : (targets.map Target.device_name).Nodup) (hK : kernels.Nodup) (hW : wgs.Nodup)
    (hSp : ∀ k ∈ kernels, ' ' ∉ k) :
    (dynamicCases targets kernels wgs).length =
      targets.length * kernels.length * wgs.length ∧
    (∀ t ∈ targets, ∀ k ∈ kernels, ∀ g ∈ wgs,
      (⟨fmtLabel k g t.device_name, Backend.opencl, some ⟨t, k, g⟩⟩ : CaseRec) ∈
        dynamicCases targets kernels wgs) ∧
    (∀ c ∈ dynamicCases targets kernels wgs, ∃ cap : OclCapture,
      c.captured = some cap ∧ cap.tgt ∈ targets ∧ cap.kernel ∈ kernels ∧ cap.wg ∈ wgs ∧
      cap.kernel <:+: c.name ∧ natChars cap.wg <:+: c.name ∧
      cap.tgt.device_name <:+: c.name) ∧
    ((dynamicCases targets kernels wgs).map CaseRec.name).Nodup := by
  refine ⟨length_dynamicCases targets kernels wgs, ?_, ?_,
    nodup_dynamic_names targets kernels wgs hT hK hW hSp⟩
  · intro t ht k hk g hg
    exact mem_dynamicCases.mpr ⟨t, ht, k, hk, g, hg, rfl⟩
  · intro c hc
    obtain ⟨t, ht, k, hk, g, hg, rfl⟩ := mem_dynamicCases.mp hc
    refine ⟨⟨t, k, g⟩, rfl, ht, hk, hg, ?_, ?_, ?_⟩
    · exact ⟨"opencl-".data,
        " split by ".data ++ natChars g ++ " on ".data ++ t.device_name,
        by simp [fmtLabel, List.append_assoc]⟩
    · exact ⟨"opencl-".data ++ k ++ " split by ".data,
        " on ".data ++ t.device_name, by simp [fmtLabel, List.append_assoc]⟩
    · exact ⟨"opencl-".data ++ k ++ " split by ".data ++ natChars g ++ " on ".data,
        [], by simp [fmtLabel, List.append_assoc]⟩

/-- Concrete discovery outcome used to witness `dynamic_case_matrix`: two
targets, three kernels, two granularities. -/
def witTargets : List Target :=
  [⟨"Dev A".data, "3.0".data, "535.104".data, "OpenCL C 1.2".data⟩,
   ⟨"Dev B".data, "2.1".data, "22.30".data, "OpenCL C 3.0".data⟩]

/-- Three space-free kernel identifiers for the `dynamic_case_matrix` witness. -/
def witKernels : List (List Char) :=
  ["reduce_simple".data, "reduce_tree".data, "reduce_kahan".data]

/-- Two work-group granularities for the `dynamic_case_matrix` witness. -/
def witWgs : List Nat := [64, 256]

/-- Witness for C2: with 2 targets, 3 kernels and 2 granularities, exactly 12
cases are generated and their labels are pairwise distinct. -/
theorem dynamic_case_matrix_witness :
    (dynamicCases witTargets witKernels witWgs).length = 12 ∧
    ((dynamicCases witTargets witKernels witWgs).map CaseRec.name).Nodup := by
  have h := dynamic_case_matrix witTargets witKernels witWgs
    (by decide) (by decide) (by decide) (by decide)
  exact ⟨h.1.trans (by decide), h.2.2.2⟩

/-- C3: on a lead-thread run the measurement publishes exactly three counters:
`adds/s` as the rate `iterations * dataset-size`, `bytes/s` as that element
count times `sizeof(float) = 4` as a rate, and `error,%` as the final relative
error times 100. -/
theorem three_counters_published (acc : List ℚ → ℚ × List ℚ) (d : List ℚ)
    (iterations : Nat) (old : List (List Char × CounterV)) :
    generic acc d iterations 0 old =
      [("adds/s".data, ⟨((iterations * d.length : Nat) : ℚ), true⟩),
       ("bytes/s".data, ⟨((iterations * d.length * 4 : Nat) : ℚ), true⟩),
       ("error,%".data, ⟨(genericLoop acc d iterations).error * 100, false⟩)] ∧
    (generic acc d iterations 0 old).length = 3 := by
  constructor <;> simp [generic, publishedCounters]

/-- C4: with zero CUDA devices no CUDA-backed case is registered and the
no-CUDA informational line is printed exactly once; with zero OpenCL targets
the dynamic registration loop generates zero cases. -/
theorem absent_backends_register_no_cases (targets : List Target)
    (kernels : List (List Char)) (wgs : List Nat) (args : List (List Char)) :
    (∀ c ∈ registeredCases 0 targets kernels wgs, c.backend ≠ Backend.cuda) ∧
    (logLines args targets 0).count ("No CUDA capable devices found!".data) = 1 ∧
    dynamicCases [] kernels wgs = [] := by
  refine ⟨?_, ?_, rfl⟩
  · intro c hc
    rw [registeredCases, if_pos (rfl : (0 : Nat) = 0)] at hc
    simp only [List.append_nil, List.mem_append] at hc
    rcases hc with hc | hc
    · have hb : ∀ x ∈ staticCpuCases, x.backend = Backend.cpu := by decide
      rw [hb c hc]
      decide
    · obtain ⟨t, ht, k, hk, g, hg, rfl⟩ := mem_dynamicCases.mp hc
      exact fun h => Backend.noConfusion h
  · simp only [logLines, if_pos rfl, List.count_append]
    have hmap : (targets.map oclLogLine).count ("No CUDA capable devices found!".data) = 0 := by
      refine List.count_eq_zero.mpr ?_
      intro hmem
      simp only [List.mem_map] at hmem
      obtain ⟨t, -, heq⟩ := hmem
      simp only [oclLogLine, List.cons_append] at heq
      obtain ⟨hhead, -⟩ := List.cons.inj heq
      exact absurd hhead (by decide)
    have hwarn : (if args.length ≤ 1
        then ["You did not feed the size of arrays, so we will use a 1GB array!".data]
        else ([] : List (List Char))).count ("No CUDA capable devices found!".data) = 0 := by
      by_cases hlen : args.length ≤ 1
      · rw [if_pos hlen]
        decide
      · rw [if_neg hlen]
        rfl
    rw [hmap, hwarn]
    decide

/-- C5: with no positional argument the element count defaults to the number
of single-precision floats in one gigabyte, `1024³/4 = 268435456`, and the
dataset is that many elements all equal to 1.0. -/
theorem default_element_count (args : List (List Char)) (h : args.length ≤ 1) :
    elementsOf args = 268435456 ∧ 1024 * 1024 * 1024 / 4 = 268435456 ∧
    datasetOf args = List.replicate 268435456 (1 : ℚ) := by
  have he : elementsOf args = 268435456 := by rw [elementsOf, if_pos h]
  exact ⟨he, rfl, by rw [datasetOf, he]⟩

/-- Witness for C5 at the one-element argument vector (program name only). -/
theorem default_element_count_witness :
    (["./reduce_bench".data] : List (List Char)).length ≤ 1 ∧
    elementsOf ["./reduce_bench".data] = 268435456 ∧
    datasetOf ["./reduce_bench".data] = List.replicate 268435456 (1 : ℚ) := by
  have h := default_element_count ["./reduce_bench".data] (by decide)
  exact ⟨by decide, h.1, h.2.2⟩

/-- C6: the three counters are written exactly when the measuring context is
the lead one (`thread_index() == 0`); a non-lead thread leaves the published
counter map unchanged. -/
theorem only_lead_thread_publishes (acc : List ℚ → ℚ × List ℚ) (d : List ℚ)
    (iterations threadIdx : Nat) (old : List (List Char × CounterV)) :
    (threadIdx ≠ 0 → generic acc d iterations threadIdx old = old) ∧
    (threadIdx = 0 → generic acc d iterations threadIdx old =
      publishedCounters iterations d.length (genericLoop acc d iterations).error) := by
  constructor
  · intro h
    simp [generic, h]
  · intro h
    subst h
    simp [generic]

/-- Witness for C6: a non-lead thread (index 1) leaves the counters unchanged,
the lead thread (index 0) publishes them. -/
theorem only_lead_thread_publishes_witness :
    generic cpuBaselineInvoke [(1 : ℚ)] 3 1 [] = [] ∧
    generic cpuBaselineInvoke [(1 : ℚ)] 3 0 [] =
      publishedCounters 3 1 (genericLoop cpuBaselineInvoke [(1 : ℚ)] 3).error :=
  ⟨(only_lead_thread_publishes cpuBaselineInvoke [(1 : ℚ)] 3 1 []).1 (by decide),
   (only_lead_thread_publishes cpuBaselineInvoke [(1 : ℚ)] 3 0 []).2 rfl⟩

/-- C7: the sequential accumulator never mutates the dataset and two
successive invocations on the unchanged dataset return exactly equal sums; in
the timing loop the dataset is unchanged after any number of invocations and
every iteration's sum equals the first one. -/
theorem accumulator_reinvocation_stable (d : List ℚ) :
    (cpuBaselineInvoke d).2 = d ∧
    (cpuBaselineInvoke (cpuBaselineInvoke d).2).1 = (cpuBaselineInvoke d).1 ∧
    (cpuBaselineInvoke (cpuBaselineInvoke d).2).2 = d ∧
    (∀ n, (genericLoop cpuBaselineInvoke d n).data = d) ∧
    (∀ n, (genericLoop cpuBaselineInvoke d (n + 1)).sum = (cpuBaselineInvoke d).1) := by
  have hdata : ∀ n, (genericLoop cpuBaselineInvoke d n).data = d := by
    intro n
    induction n with
    | zero => rfl
    | succ m ih => simp [genericLoop, cpuBaselineInvoke, ih]
  refine ⟨rfl, rfl, rfl, hdata, ?_⟩
  intro n
  simp [genericLoop, cpuBaselineInvoke, hdata n]

/-- C8 (amended): the registration lambda captures its target, kernel name and
granularity by value, so the dynamic case list is already exactly the explicit
enumeration of immutable per-case descriptors the spec's design note asks for;
no case's name, target, kernel or granularity depends on state shared with the
other generated cases. -/
theorem dynamic_registration_immutable_descriptors (targets : List Target)
    (kernels : List (List Char)) (wgs : List Nat) :
    dynamicCases targets kernels wgs = specCaseDescriptors targets kernels wgs := by
  simp only [specCaseDescriptors, List.map_flatMap, List.map_map]
  rfl

/-- Target fixture for the C8 counterexample. -/
def cexTargetA : Target := ⟨"Dev A".data, "3.0".data, "535.104".data, "OpenCL C 1.2".data⟩

/-- Second target fixture for the C8 counterexample. -/
def cexTargetB : Target := ⟨"Dev B".data, "2.1".data, "22.30".data, "OpenCL C 3.0".data⟩

/-- C8 counterexample: at a concrete discovery outcome the two generated cases
are fully determined immutable records — each one's label, target, kernel and
granularity are the constants fixed at its own registration step, contradicting
the claim that they remain bound to mutable state shared across the cases. -/
theorem dynamic_registration_fixed_at_concrete :
    dynamicCases [cexTargetA, cexTargetB] ["reduce".data] [32] =
      [⟨"opencl-reduce split by 32 on Dev A".data, Backend.opencl,
         some ⟨cexTargetA, "reduce".data, 32⟩⟩,
       ⟨"opencl-reduce split by 32 on Dev B".data, Backend.opencl,
         some ⟨cexTargetB, "reduce".data, 32⟩⟩] := by
  decide

/-- C9: an element count of zero (argument text "0") produces an empty
dataset, an expected sum of exactly zero, and every iteration of the
measurement loop computes its relative error by dividing by that zero
expected sum, with no guard in the code path. -/
theorem zero_elements_divides_by_zero :
    atol ("0".data) = 0 ∧
    elementsOf ["./reduce_bench".data, "0".data] = 0 ∧
    datasetOf ["./reduce_bench".data, "0".data] = [] ∧
    sumExpected (datasetOf ["./reduce_bench".data, "0".data]) = 0 ∧
    ∀ (acc : List ℚ → ℚ × List ℚ) (n : Nat),
      (genericLoop acc [] (n + 1)).error =
        |(0 : ℚ) - (genericLoop acc [] (n + 1)).sum| / 0 := by
  have h0 : elementsOf ["./reduce_bench".data, "0".data] = 0 := by decide
  have hd : datasetOf ["./reduce_bench".data, "0".data] = [] := by
    rw [datasetOf, h0]
    rfl
  refine ⟨by decide, h0, hd, by rw [hd]; simp [sumExpected], ?_⟩
  intro acc n
  simp only [genericLoop, relativeError, sumExpected, List.length_nil, Nat.cast_zero, zero_mul]

/-- C10: a negative positional argument is parsed as a signed long and cast to
an unsigned size, wrapping modulo 2^64: "-1" requests 2^64 - 1 elements. -/
theorem negative_argument_wraps :
    atol ("-1".data) = -1 ∧
    toSizeT (-1) = 2 ^ 64 - 1 ∧
    elementsOf ["./reduce_bench".data, "-1".data] = 2 ^ 64 - 1 ∧
    elementsOf ["./reduce_bench".data, "-1".data] = 18446744073709551615 :=
  ⟨by decide, by decide, by decide, by decide⟩

/-- Witness for C4: at a concrete configuration with zero CUDA devices and
zero OpenCL targets, a registered case is not CUDA-backed, the no-CUDA line
appears exactly once, and no dynamic case exists. -/
theorem absent_backends_register_no_cases_witness :
    (⟨"cpu_openmp".data, Backend.cpu, none⟩ : CaseRec) ∈ registeredCases 0 [] [] [] ∧
    (⟨"cpu_openmp".data, Backend.cpu, none⟩ : CaseRec).backend ≠ Backend.cuda ∧
    (logLines ["./reduce_bench".data] [] 0).count
      ("No CUDA capable devices found!".data) = 1 ∧
    dynamicCases [] ([] : List (List Char)) ([] : List Nat) = [] := by
  have h := absent_backends_register_no_cases [] [] [] ["./reduce_bench".data]
  exact ⟨by decide, h.1 _ (by decide), h.2.1, h.2.2⟩
